import Mathlib

/-!
Verification of the Study Buddy quiz/game engine core: the pair extractor,
the Fact-Check (Knowledge Dash) state machine, the Matching (Memory Game)
selection logic, the Practice (Exam View) reveal semantics, and the daily
usage counter.  JavaScript strings are modelled as lists of characters,
JavaScript numbers holding counters as integers or naturals, and the
single-threaded event model as explicit state-passing functions.
-/

namespace StudyBuddy

/-- JavaScript strings are modelled as lists of characters. -/
abbrev Str := List Char

/-- Coerces a Lean string literal to the character-list model. -/
def str (s : String) : Str := s.data

/-- The delimiter set of the bullet-splitting regex: colon, hyphen, en dash, em dash. -/
def isDelim (c : Char) : Bool := c = ':' || c = '-' || c = '–' || c = '—'

/-- JavaScript String.prototype.trim: strip leading and trailing whitespace. -/
def trimStr (s : Str) : Str :=
  ((s.dropWhile Char.isWhitespace).reverse.dropWhile Char.isWhitespace).reverse

/-- JavaScript split on the character class of delimiters: the string is cut at
every delimiter occurrence; delimiters are dropped; empty segments are kept. -/
def splitDelim : Str → List Str
  | [] => [[]]
  | c :: cs =>
    if isDelim c then [] :: splitDelim cs
    else
      match splitDelim cs with
      | s :: rest => (c :: s) :: rest
      | [] => [[c]]

/-- A term/definition pair, the atomic unit both games quiz over. -/
structure Pair where
  term : Str
  defn : Str
deriving DecidableEq, Repr

/-- One knowledge-dash question, as in the `Question` interface. -/
structure Question where
  term : Str
  definition : Str
  isCorrect : Bool
deriving DecidableEq, Repr

/-- The per-bullet part of the pool builder in `generateQuestion`
(KnowledgeDash.tsx): `p.split(/[:\-–—]/)` followed by
`if (parts.length >= 2) push {term: parts[0].trim(), def: parts[1].trim()}`. -/
def pairFromPoint (p : Str) : Option Pair :=
  match splitDelim p with
  | t :: d :: _ => some ⟨trimStr t, trimStr d⟩
  | _ => none

/-- Scans a string for the first delimiter: returns the text before it and
the whole rest after it, or nothing when no delimiter occurs. -/
def breakAtDelim : Str → Option (Str × Str)
  | [] => none
  | c :: cs =>
    if isDelim c then some ([], cs)
    else
      match breakAtDelim cs with
      | some (a, b) => some (c :: a, b)
      | none => none

/-- The per-bullet extraction exactly as the claim words it: split at the
first delimiter, take the trimmed text before it as the term and all the
trimmed text after it as the definition, and emit a pair only when both
trimmed segments are non-empty. -/
def pairFromPointClaim (p : Str) : Option Pair :=
  match breakAtDelim p with
  | some (before, after) =>
    if trimStr before ≠ [] ∧ trimStr after ≠ [] then
      some ⟨trimStr before, trimStr after⟩
    else none
  | none => none

/-- The amended per-bullet extraction: a pair is emitted exactly when the
string contains a delimiter; the term is the trimmed text before the first
delimiter, and the definition is the trimmed text strictly between the
first delimiter and the next one (or the end of the string), even when a
segment trims to empty. -/
def pairFromPointAmended (p : Str) : Option Pair :=
  match breakAtDelim p with
  | some (before, after) =>
    some ⟨trimStr before, trimStr (after.takeWhile (fun c => !isDelim c))⟩
  | none => none

/-- A note: a heading and its bullet points. -/
structure Note where
  heading : Str
  points : List Str
deriving DecidableEq, Repr

/-- The full pool builder of `generateQuestion`: every flashcard front/back
becomes a pair, then every bullet point of every note is split. -/
def extractPairs (flashcards : List (Str × Str)) (notes : List Note) : List Pair :=
  flashcards.map (fun f => ⟨f.1, f.2⟩) ++
    notes.flatMap (fun n => n.points.filterMap pairFromPoint)

/-- A uniform draw `Math.floor(Math.random() * allPairs.length)` with an
injected index source: the supplied index is reduced modulo the pool size. -/
def draw (pool : List Pair) (i : Nat) : Option Pair :=
  pool.get? (i % pool.length)

/-- The mismatch redraw loop of `generateQuestion`: repeatedly draw a pair
from the pool (indices supplied by `stream` from position `k` on) until its
term differs from the base term `t`.  `fuel` bounds the number of draws so
that the model stays total — the JavaScript while-loop has no such bound. -/
def redrawLoop (pool : List Pair) (t : Str) (stream : Nat → Nat) :
    Nat → Nat → Option Pair
  | _, 0 => none
  | k, fuel + 1 =>
    match draw pool (stream k) with
    | none => none
    | some pb =>
      if pb.term = t then redrawLoop pool t stream (k + 1) fuel else some pb

/-- `generateQuestion` with its randomness injected: `isCorrectMatch` is the
coin flip, `iA` indexes the base pair, and `stream` supplies the mismatch
redraw indices.  Returns nothing when the pool holds fewer than 2 pairs, or
when the redraw loop runs out of fuel. -/
def generateQuestion (pool : List Pair) (isCorrectMatch : Bool) (iA : Nat)
    (stream : Nat → Nat) (fuel : Nat) : Option Question :=
  if pool.length < 2 then none
  else
    match draw pool iA with
    | none => none
    | some pa =>
      if isCorrectMatch then some ⟨pa.term, pa.defn, true⟩
      else
        match redrawLoop pool pa.term stream 0 fuel with
        | none => none
        | some pb => some ⟨pa.term, pb.defn, false⟩

/-- Truncation of a trimmed definition as in `initGame` of the memory game:
the first 100 characters, plus an ellipsis marker when it was longer. -/
def truncate100 (t : Str) : Str :=
  t.take 100 ++ (if 100 < t.length then ['.', '.', '.'] else [])

/-- The per-bullet extraction of `initGame` (MemoryGame): split on the
delimiters; keep the pair only when the trimmed term is shorter than 40
characters and the trimmed definition is longer than 5; the definition is
truncated to 100 characters with an ellipsis. -/
def gamePairFromPoint (p : Str) : Option Pair :=
  match splitDelim p with
  | t :: d :: _ =>
    if (trimStr t).length < 40 ∧ 5 < (trimStr d).length then
      some ⟨trimStr t, truncate100 (trimStr d)⟩
    else none
  | _ => none

/-- The pair list built by `initGame` before shuffling and tile creation:
the per-bullet pairs of all notes and, when fewer than 3 were found, an
appended fallback `{heading, first point truncated to 100 characters}` for
each of the first 4 notes that have points. -/
def initGamePairs (notes : List Note) : List Pair :=
  let pairs := notes.flatMap (fun n => n.points.filterMap gamePairFromPoint)
  if pairs.length < 3 then
    pairs ++ (notes.take 4).filterMap (fun n =>
      match n.points with
      | p :: _ => some ⟨n.heading, p.take 100⟩
      | [] => none)
  else pairs

/-- The game-specific extraction exactly as the claim words it: a pair is
emitted whenever the split succeeds and the term does not exceed 40
characters (with the same truncation of the definition), and the fallback
keeps the first point untruncated. -/
def gamePairFromPointClaim (p : Str) : Option Pair :=
  match splitDelim p with
  | t :: d :: _ =>
    if (trimStr t).length ≤ 40 then some ⟨trimStr t, truncate100 (trimStr d)⟩
    else none
  | _ => none

/-- The `initGame` pair list as the claim words it. -/
def initGamePairsClaim (notes : List Note) : List Pair :=
  let pairs := notes.flatMap (fun n => n.points.filterMap gamePairFromPointClaim)
  if pairs.length < 3 then
    pairs ++ (notes.take 4).filterMap (fun n =>
      match n.points with
      | p :: _ => some ⟨n.heading, p⟩
      | [] => none)
  else pairs

/-- Whether a bullet qualifies for the memory game under the amended rule:
the split succeeds, the trimmed term is strictly shorter than 40
characters, and the trimmed definition is strictly longer than 5. -/
def bulletQualifies (p : Str) : Bool :=
  match splitDelim p with
  | t :: d :: _ => decide ((trimStr t).length < 40) && decide (5 < (trimStr d).length)
  | _ => false

/-- The pair a qualifying bullet yields under the amended rule. -/
def bulletPair (p : Str) : Pair :=
  match splitDelim p with
  | t :: d :: _ => ⟨trimStr t, truncate100 (trimStr d)⟩
  | _ => ⟨[], []⟩

/-- The amended description of `initGame`: keep the qualifying bullets of
all notes in order, and append the heading/first-point fallback (the first
point truncated to 100 characters) over the first 4 notes whenever fewer
than 3 qualifying pairs exist. -/
def initGamePairsAmended (notes : List Note) : List Pair :=
  let qual := ((notes.flatMap Note.points).filter bulletQualifies).map bulletPair
  let fallback := (notes.take 4).filterMap
    (fun n => n.points.head?.map (fun p => ⟨n.heading, p.take 100⟩))
  if 3 ≤ qual.length then qual else qual ++ fallback

/- ### Practice session (ExamView.tsx) -/

/-- The four pieces of React state held by `ExamView`: the recorded
multiple-choice selections, the short-answer drafts, the per-question
reveal flags, and the global show-all-answers flag. -/
structure ExamState where
  selectedOptions : Nat → Option Str
  shortAnswers : Nat → Option Str
  revealedShort : Nat → Bool
  showOverallAnswers : Bool

/-- The Show Answers button: `setShowOverallAnswers(!showOverallAnswers)`. -/
def toggleShowAll (s : ExamState) : ExamState :=
  { s with showOverallAnswers := !s.showOverallAnswers }

/-- The per-question answered test: `hasAnswered = !!selected || showOverallAnswers`. -/
def hasAnswered (s : ExamState) (q : Nat) : Bool :=
  (s.selectedOptions q).isSome || s.showOverallAnswers

/- ### Daily usage counter (App root component) -/

/-- The fixed daily session limit. -/
def DAILY_LIMIT : Nat := 5

/-- The persisted daily-usage record `{count, lastDate}`. -/
structure Usage where
  count : Nat
  lastDate : Str
deriving DecidableEq, Repr

/-- `checkLimit`: returns false (session blocked) exactly when the stored
date is today and the count has reached the daily limit. -/
def checkLimit (today : Str) (u : Usage) : Bool :=
  if u.lastDate = today ∧ DAILY_LIMIT ≤ u.count then false else true

/-- `incrementUsage`: bump the count when the stored date is today,
otherwise restart at 1; the date always becomes today. -/
def incrementUsage (today : Str) (u : Usage) : Usage :=
  { count := if u.lastDate = today then u.count + 1 else 1, lastDate := today }

/-- The `dailyUsage` initializer: a saved record is kept only when its date
is today; otherwise (stale or absent) usage restarts at zero for today. -/
def loadUsage (today : Str) (saved : Option Usage) : Usage :=
  match saved with
  | some p => if p.lastDate = today then p else ⟨0, today⟩
  | none => ⟨0, today⟩

/- ### Fact-Check engine state machine (KnowledgeDash.tsx) -/

/-- The three phases of a Knowledge Dash session. -/
inductive Phase
  | idle
  | playing
  | ended
deriving DecidableEq, Repr

/-- The two feedback flashes shown after an answer. -/
inductive Feedback
  | correct
  | wrong
deriving DecidableEq, Repr

/-- The React state of the `KnowledgeDash` component. -/
structure DashState where
  gameState : Phase
  currentQuestion : Option Question
  score : Int
  streak : Int
  lives : Int
  timeLeft : Int
  feedback : Option Feedback
deriving DecidableEq, Repr

/-- The synchronous part of `handleAnswer`: ignored without an active
question or while feedback is pending; a choice equal to `isCorrect` adds
`10*(streak+1)` to the score and increments the streak; any other choice
costs one life and resets the streak. -/
def handleAnswer (choice : Bool) (s : DashState) : DashState :=
  match s.currentQuestion, s.feedback with
  | some q, none =>
    if choice = q.isCorrect then
      { s with score := s.score + 10 * (s.streak + 1),
               streak := s.streak + 1,
               feedback := some Feedback.correct }
    else
      { s with lives := s.lives - 1, streak := 0, feedback := some Feedback.wrong }
  | _, _ => s

/-- One full answer round: the synchronous part of `handleAnswer` followed
by its settle-delay callback, which clears the feedback and, re-reading the
captured pre-answer `lives`, transitions to `ended` when the answer
exhausted the last life and otherwise installs the next generated question
`newQ`. -/
def answerRound (choice : Bool) (newQ : Option Question) (s : DashState) : DashState :=
  match s.currentQuestion, s.feedback with
  | some q, none =>
    let s1 := handleAnswer choice s
    let s2 := { s1 with feedback := none }
    if s.lives ≤ (if choice = q.isCorrect then 0 else 1) then
      { s2 with gameState := Phase.ended }
    else
      { s2 with currentQuestion := newQ }
  | _, _ => s

/-- One countdown tick, enabled while playing with time remaining: a tick
from `timeLeft = 1` zeroes the clock and ends the session, otherwise the
clock just decrements. -/
def tick (s : DashState) : DashState :=
  if s.gameState = Phase.playing ∧ 0 < s.timeLeft then
    if s.timeLeft ≤ 1 then { s with timeLeft := 0, gameState := Phase.ended }
    else { s with timeLeft := s.timeLeft - 1 }
  else s

/- ### Matching engine (MemoryGame component) -/

/-- Whether a game card shows a term or a definition face. -/
inductive CardKind
  | term
  | definition
deriving DecidableEq, Repr

/-- One memory-game card, as in the `GameCard` interface. -/
structure GameCard where
  id : Nat
  content : Str
  kind : CardKind
  pairId : Nat
  isFlipped : Bool
  isMatched : Bool
deriving DecidableEq, Repr

/-- The guard `cards.find(c => c.id === id)?.isMatched` (an absent card
reads as not matched, like the undefined of the optional chain). -/
def matchedLookup (cards : List GameCard) (i : Nat) : Bool :=
  ((cards.find? (fun c => c.id == i)).map GameCard.isMatched).getD false

/-- The selection update of `handleCardClick`: a no-op when two cards are
already face-up, when the clicked card is already matched, or when it is
already selected; otherwise the id is appended to the selection. -/
def handleCardClick (cards : List GameCard) (flippedCards : List Nat) (i : Nat) :
    List Nat :=
  if flippedCards.length = 2 ∨ matchedLookup cards i = true ∨ i ∈ flippedCards
  then flippedCards
  else flippedCards ++ [i]

/- ### Concrete sample data used by the witnesses -/

/-- A sample true question. -/
def qTrue : Question := ⟨str (r"Mitochondria"), str (r"Powerhouse of the cell"), true⟩

/-- A pool of two pairs that share one term: legal input (size 2, duplicate
terms are allowed by the extractor), yet no mismatch draw can succeed. -/
def poolSameTerm : List Pair :=
  [⟨str (r"A"), str (r"1")⟩, ⟨str (r"A"), str (r"2")⟩]

/-- A pool of two pairs with distinct terms. -/
def poolAB : List Pair := [⟨str (r"A"), str (r"1")⟩, ⟨str (r"B"), str (r"2")⟩]

/-- The three-pair pool of the self-pairing scenario. -/
def poolABC : List Pair :=
  [⟨str (r"A"), str (r"1")⟩, ⟨str (r"B"), str (r"2")⟩, ⟨str (r"C"), str (r"3")⟩]

/-- A note whose only bullet has a well-formed split but a 3-character
definition. -/
def cexNoteA : Note := ⟨str (r"H1"), [str (r"ab: cde")]⟩

/-- A note whose only bullet has a term of exactly 40 characters. -/
def cexNoteB : Note := ⟨str (r"H2"), [List.replicate 40 'a' ++ ':' :: str (r" abcdefgh")]⟩

/-- A note whose only bullet has no delimiter and 150 characters. -/
def cexNoteC : Note := ⟨str (r"H3"), [List.replicate 150 'x']⟩

/-- A tiny memory board: one pair, neither card matched yet. -/
def memoryCards : List GameCard :=
  [⟨0, str (r"Osmosis"), CardKind.term, 0, false, false⟩,
   ⟨1, str (r"Diffusion of water"), CardKind.definition, 0, false, false⟩]

/-- A fresh playing state as produced by `startGame`. -/
def dashStart : DashState := ⟨Phase.playing, some qTrue, 0, 0, 3, 30, none⟩

/-- A playing state down to its last life with time still on the clock. -/
def dashLastLife : DashState := ⟨Phase.playing, some qTrue, 40, 2, 1, 7, none⟩

/-- A playing state with one second left and all three lives. -/
def dashTimeOne : DashState := ⟨Phase.playing, some qTrue, 40, 2, 3, 1, none⟩

/- ### Theorems -/

/-- C9: enabling (or disabling) the global show-all-answers flag leaves the
recorded multiple-choice selections, short-answer drafts and per-question
reveal flags untouched, and toggling it on and then off restores the whole
state, in particular each question's answered/unanswered status. -/
theorem C9_show_all_frame : ∀ s : ExamState,
    (toggleShowAll s).selectedOptions = s.selectedOptions
    ∧ (toggleShowAll s).shortAnswers = s.shortAnswers
    ∧ (toggleShowAll s).revealedShort = s.revealedShort
    ∧ toggleShowAll (toggleShowAll s) = s
    ∧ ∀ q, hasAnswered (toggleShowAll (toggleShowAll s)) q = hasAnswered s q := by
  intro s
  refine ⟨rfl, rfl, rfl, ?_, ?_⟩
  · cases s with
    | mk sel short rev flag => simp [toggleShowAll]
  · intro q
    cases s with
    | mk sel short rev flag => simp [toggleShowAll, hasAnswered]

/-- C10: a new session is blocked exactly when the stored usage has
`lastDate` equal to today and count at least the daily limit of 5;
incrementing on a different stored date restarts the count at 1 with
today's date; and loading a record with a stale date yields 0 sessions
used today. -/
theorem C10_daily_limit (today : Str) (u p : Usage)
    (hu : u.lastDate ≠ today) (hp : p.lastDate ≠ today) :
    DAILY_LIMIT = 5
    ∧ (∀ v : Usage, checkLimit today v = false ↔ (v.lastDate = today ∧ 5 ≤ v.count))
    ∧ incrementUsage today u = ⟨1, today⟩
    ∧ loadUsage today (some p) = ⟨0, today⟩ := by
  refine ⟨rfl, ?_, ?_, ?_⟩
  · intro v
    unfold checkLimit DAILY_LIMIT
    split
    · next h => simpa using h
    · next h => simpa using h
  · simp [incrementUsage, hu]
  · simp [loadUsage, hp]

/-- Witness for C10 at a concrete stale record. -/
theorem C10_daily_limit_witness :
    DAILY_LIMIT = 5
    ∧ (∀ v : Usage, checkLimit (str (r"Mon Oct 12 2026")) v = false
        ↔ (v.lastDate = str (r"Mon Oct 12 2026") ∧ 5 ≤ v.count))
    ∧ incrementUsage (str (r"Mon Oct 12 2026")) ⟨3, str (r"Sun Oct 11 2026")⟩
        = ⟨1, str (r"Mon Oct 12 2026")⟩
    ∧ loadUsage (str (r"Mon Oct 12 2026")) (some ⟨4, str (r"Sun Oct 11 2026")⟩)
        = ⟨0, str (r"Mon Oct 12 2026")⟩ :=
  C10_daily_limit (str (r"Mon Oct 12 2026")) ⟨3, str (r"Sun Oct 11 2026")⟩
    ⟨4, str (r"Sun Oct 11 2026")⟩ (by decide) (by decide)

/-- C1: in any playing state with an active question and no feedback
pending, answering with the choice equal to the question's `isCorrect` adds
`10*(s+1)` to the score and sets the streak to `s+1`; consequently, from
score 0 and streak 0, three consecutive correct answers end at score 60
and streak 3, still playing. -/
theorem C1_scoring (s : DashState) (q1 q2 q3 : Question)
    (hplay : s.gameState = Phase.playing)
    (hq : s.currentQuestion = some q1) (hfb : s.feedback = none)
    (hlv : 0 < s.lives) :
    ((handleAnswer q1.isCorrect s).score = s.score + 10 * (s.streak + 1)
      ∧ (handleAnswer q1.isCorrect s).streak = s.streak + 1)
    ∧ (s.score = 0 → s.streak = 0 →
        (answerRound q3.isCorrect none
          (answerRound q2.isCorrect (some q3)
            (answerRound q1.isCorrect (some q2) s))).score = 60
        ∧ (answerRound q3.isCorrect none
            (answerRound q2.isCorrect (some q3)
              (answerRound q1.isCorrect (some q2) s))).streak = 3
        ∧ (answerRound q3.isCorrect none
            (answerRound q2.isCorrect (some q3)
              (answerRound q1.isCorrect (some q2) s))).gameState = Phase.playing) := by
  obtain ⟨gs, cq, sc, st, lv, tl, fb⟩ := s
  replace hplay : gs = Phase.playing := hplay
  replace hq : cq = some q1 := hq
  replace hfb : fb = none := hfb
  replace hlv : 0 < lv := hlv
  subst hplay hq hfb
  have hlv0 : ¬ lv ≤ (0 : Int) := by omega
  constructor
  · simp [handleAnswer]
  · intro hs0 hst0
    replace hs0 : sc = 0 := hs0
    replace hst0 : st = 0 := hst0
    subst hs0 hst0
    refine ⟨?_, ?_, ?_⟩ <;> simp [answerRound, handleAnswer, hlv0]

/-- Witness for C1 at a concrete start state and question. -/
theorem C1_scoring_witness :
    (answerRound qTrue.isCorrect none
      (answerRound qTrue.isCorrect (some qTrue)
        (answerRound qTrue.isCorrect (some qTrue) dashStart))).score = 60
    ∧ (answerRound qTrue.isCorrect none
        (answerRound qTrue.isCorrect (some qTrue)
          (answerRound qTrue.isCorrect (some qTrue) dashStart))).streak = 3 := by
  have h := C1_scoring dashStart qTrue qTrue qTrue rfl rfl rfl (by decide)
  exact ⟨(h.2 rfl rfl).1, (h.2 rfl rfl).2.1⟩

/-- C3: a choice different from the question's `isCorrect` decrements lives
by exactly 1, resets the streak to 0 and leaves the score unchanged; after
the settle delay, if that answer exhausted the last life the session is
`ended` (whatever `timeLeft` is), and otherwise the next question is
installed and the session remains playing. -/
theorem C3_wrong_answer (s : DashState) (q : Question) (choice : Bool)
    (newQ : Option Question)
    (hplay : s.gameState = Phase.playing)
    (hq : s.currentQuestion = some q) (hfb : s.feedback = none)
    (hch : choice ≠ q.isCorrect) :
    (handleAnswer choice s).lives = s.lives - 1
    ∧ (handleAnswer choice s).streak = 0
    ∧ (handleAnswer choice s).score = s.score
    ∧ (s.lives ≤ 1 → (answerRound choice newQ s).gameState = Phase.ended)
    ∧ (1 < s.lives →
        (answerRound choice newQ s).gameState = Phase.playing
        ∧ (answerRound choice newQ s).currentQuestion = newQ
        ∧ (answerRound choice newQ s).feedback = none) := by
  obtain ⟨gs, cq, sc, st, lv, tl, fb⟩ := s
  replace hplay : gs = Phase.playing := hplay
  replace hq : cq = some q := hq
  replace hfb : fb = none := hfb
  subst hplay hq hfb
  refine ⟨by simp [handleAnswer, hch], by simp [handleAnswer, hch],
    by simp [handleAnswer, hch], ?_, ?_⟩
  · intro hle
    replace hle : lv ≤ (1 : Int) := hle
    simp [answerRound, handleAnswer, hch, hle]
  · intro hgt
    replace hgt : (1 : Int) < lv := hgt
    have hle : ¬ lv ≤ (1 : Int) := by omega
    simp [answerRound, handleAnswer, hch, hle]

/-- Witness for C3: losing the last life on a wrong answer ends the session. -/
theorem C3_wrong_answer_witness :
    (handleAnswer false dashLastLife).lives = dashLastLife.lives - 1
    ∧ (handleAnswer false dashLastLife).score = dashLastLife.score
    ∧ (answerRound false none dashLastLife).gameState = Phase.ended := by
  have h := C3_wrong_answer dashLastLife qTrue false none rfl rfl rfl (by decide)
  exact ⟨h.1, h.2.2.1, h.2.2.2.1 (by decide)⟩

/-- C4: an enabled tick (playing, time remaining) decrements `timeLeft` by
1 and never touches lives; the tick from `timeLeft = 1` transitions to
`ended` even with lives remaining, a tick from more time stays playing,
and after an enabled tick the engine is never playing with `timeLeft = 0`. -/
theorem C4_countdown (s : DashState)
    (hplay : s.gameState = Phase.playing) (ht : 0 < s.timeLeft) :
    (tick s).timeLeft = s.timeLeft - 1
    ∧ (tick s).lives = s.lives
    ∧ (s.timeLeft = 1 → (tick s).gameState = Phase.ended)
    ∧ (1 < s.timeLeft → (tick s).gameState = Phase.playing)
    ∧ ¬((tick s).gameState = Phase.playing ∧ (tick s).timeLeft = 0) := by
  obtain ⟨gs, cq, sc, st, lv, tl, fb⟩ := s
  replace hplay : gs = Phase.playing := hplay
  replace ht : 0 < tl := ht
  subst hplay
  by_cases h1 : tl ≤ (1 : Int)
  · have htl : tl = 1 := by omega
    subst htl
    simp [tick]
  · have h1' : (1 : Int) < tl := by omega
    have hne : tl ≠ 0 := by omega
    simp [tick, ht, h1, hne]
    omega

/-- Witness for C4: a tick from one second with all three lives left ends
the session. -/
theorem C4_countdown_witness :
    (tick dashTimeOne).timeLeft = dashTimeOne.timeLeft - 1
    ∧ (tick dashTimeOne).lives = dashTimeOne.lives
    ∧ (tick dashTimeOne).gameState = Phase.ended := by
  have h := C4_countdown dashTimeOne rfl (by decide)
  exact ⟨h.1, h.2.1, h.2.2.1 rfl⟩

/-- C7: the face-up selection never exceeds length 2, and a click is a
no-op when two cards are face-up, when the clicked card is matched, or
when it is already selected; in particular clicking the same unmatched
card twice in a row from an empty selection leaves exactly one selection. -/
theorem C7_selection_invariant (cards : List GameCard) (sel : List Nat) (i : Nat)
    (hlen : sel.length ≤ 2) :
    (handleCardClick cards sel i).length ≤ 2
    ∧ (sel.length = 2 → handleCardClick cards sel i = sel)
    ∧ (matchedLookup cards i = true → handleCardClick cards sel i = sel)
    ∧ (i ∈ sel → handleCardClick cards sel i = sel)
    ∧ (matchedLookup cards i = false →
        handleCardClick cards (handleCardClick cards [] i) i
            = handleCardClick cards [] i
        ∧ (handleCardClick cards [] i).length = 1) := by
  refine ⟨?_, ?_, ?_, ?_, ?_⟩
  · unfold handleCardClick
    split
    · exact hlen
    · next h =>
      push_neg at h
      have : sel.length ≤ 1 := by omega
      simp [List.length_append]
      omega
  · intro h2
    unfold handleCardClick
    rw [if_pos (Or.inl h2)]
  · intro hm
    unfold handleCardClick
    rw [if_pos (Or.inr (Or.inl hm))]
  · intro hi
    unfold handleCardClick
    rw [if_pos (Or.inr (Or.inr hi))]
  · intro hm
    have hfirst : handleCardClick cards [] i = [i] := by
      unfold handleCardClick
      rw [if_neg]
      · rfl
      · simp [hm]
    rw [hfirst]
    constructor
    · unfold handleCardClick
      rw [if_pos (Or.inr (Or.inr (List.mem_singleton.mpr rfl)))]
    · rfl

/-- Witness for C7 on a two-card board with an empty selection. -/
theorem C7_selection_invariant_witness :
    (handleCardClick memoryCards [] 0).length ≤ 2
    ∧ (matchedLookup memoryCards 0 = false →
        handleCardClick memoryCards (handleCardClick memoryCards [] 0) 0
            = handleCardClick memoryCards [] 0
        ∧ (handleCardClick memoryCards [] 0).length = 1) := by
  have h := C7_selection_invariant memoryCards [] 0 (by decide)
  exact ⟨h.1, h.2.2.2.2⟩

/-- A string with no delimiter splits into the single segment that is the
whole string. -/
theorem splitDelim_of_break_none (p : Str) (h : breakAtDelim p = none) :
    splitDelim p = [p] := by
  induction p with
  | nil => rfl
  | cons c cs ih =>
    by_cases hc : isDelim c
    · simp [breakAtDelim, hc] at h
    · cases hb : breakAtDelim cs with
      | some ab => simp [breakAtDelim, hc, hb] at h
      | none => simp [splitDelim, hc, ih hb]

/-- Splitting on every delimiter peels off the text before the first
delimiter and continues on the rest. -/
theorem splitDelim_of_break_some (p b a : Str) (h : breakAtDelim p = some (b, a)) :
    splitDelim p = b :: splitDelim a := by
  induction p generalizing b a with
  | nil => simp [breakAtDelim] at h
  | cons c cs ih =>
    by_cases hc : isDelim c
    · simp [breakAtDelim, hc] at h
      obtain ⟨hb1, ha1⟩ := h
      subst hb1 ha1
      simp [splitDelim, hc]
    · cases hb : breakAtDelim cs with
      | none => simp [breakAtDelim, hc, hb] at h
      | some ab =>
        obtain ⟨a1, b1⟩ := ab
        simp [breakAtDelim, hc, hb] at h
        obtain ⟨hb1, ha1⟩ := h
        subst hb1 ha1
        simp [splitDelim, hc, ih a1 b1 hb]

/-- The first segment of the split is the longest delimiter-free prefix. -/
theorem splitDelim_head (p : Str) :
    ∃ t, splitDelim p = (p.takeWhile (fun c => !isDelim c)) :: t := by
  induction p with
  | nil => exact ⟨[], rfl⟩
  | cons c cs ih =>
    by_cases hc : isDelim c
    · exact ⟨splitDelim cs, by simp [splitDelim, hc, List.takeWhile_cons]⟩
    · obtain ⟨t, ht⟩ := ih
      exact ⟨t, by simp [splitDelim, hc, ht, List.takeWhile_cons]⟩

/-- C2 counterexample: the code emits a pair for a bullet whose trimmed
definition segment is empty, and cuts the definition at the second
delimiter instead of taking all text after the first, so the claimed
extraction rule disagrees with the code on two concrete bullets. -/
theorem C2_extractor_cex :
    pairFromPoint (str (r"Osmosis:")) ≠ pairFromPointClaim (str (r"Osmosis:"))
    ∧ pairFromPoint (str (r"a: b - c")) ≠ pairFromPointClaim (str (r"a: b - c"))
    ∧ pairFromPoint (str (r"Osmosis:")) = some ⟨str (r"Osmosis"), []⟩
    ∧ pairFromPointClaim (str (r"Osmosis:")) = none
    ∧ pairFromPoint (str (r"a: b - c")) = some ⟨str (r"a"), str (r"b")⟩
    ∧ pairFromPointClaim (str (r"a: b - c")) = some ⟨str (r"a"), str (r"b - c")⟩ := by
  exact ⟨by decide, by decide, by decide, by decide, by decide, by decide⟩

/-- C2 amended: for every bullet string, the extractor emits a pair exactly
when the string contains a delimiter, the term being the trimmed text
before the first delimiter and the definition the trimmed text strictly
between the first delimiter and the next one (or the end), with no
non-emptiness check on either trimmed segment. -/
theorem C2_extractor_amended : ∀ p : Str, pairFromPoint p = pairFromPointAmended p := by
  intro p
  cases hb : breakAtDelim p with
  | none =>
    simp [pairFromPoint, pairFromPointAmended, hb, splitDelim_of_break_none p hb]
  | some ba =>
    obtain ⟨b, a⟩ := ba
    obtain ⟨t, ht⟩ := splitDelim_head a
    simp [pairFromPoint, pairFromPointAmended, hb,
      splitDelim_of_break_some p b a hb, ht]

/-- The `initGame` per-bullet extraction, phrased as a qualification test
plus a pair constructor. -/
theorem gamePairFromPoint_eq (p : Str) :
    gamePairFromPoint p = if bulletQualifies p then some (bulletPair p) else none := by
  unfold gamePairFromPoint bulletQualifies bulletPair
  cases h : splitDelim p with
  | nil => simp
  | cons t rest =>
    cases rest with
    | nil => simp
    | cons d rest2 =>
      by_cases h1 : (trimStr t).length < 40 ∧ 5 < (trimStr d).length
      · simp [h1]
      · simp [h1]

/-- Per-point filterMap with the extractor is a filter followed by a map. -/
theorem filterMap_gamePair (l : List Str) :
    l.filterMap gamePairFromPoint = (l.filter bulletQualifies).map bulletPair := by
  induction l with
  | nil => rfl
  | cons p ps ih =>
    rw [List.filterMap_cons, gamePairFromPoint_eq]
    by_cases hp : bulletQualifies p
    · simp [hp, ih]
    · simp [hp, ih]

/-- Filtering and mapping commute with flattening the notes' points. -/
theorem flatMap_filter_map (notes : List Note) :
    notes.flatMap (fun n => (n.points.filter bulletQualifies).map bulletPair)
      = ((notes.flatMap Note.points).filter bulletQualifies).map bulletPair := by
  induction notes with
  | nil => rfl
  | cons n ns ih => simp [ih]

/-- The fallback written with a head-match equals the head-option phrasing. -/
theorem fallback_eq (l : List Note) :
    l.filterMap (fun n =>
        match n.points with
        | p :: _ => some (⟨n.heading, p.take 100⟩ : Pair)
        | [] => none)
      = l.filterMap (fun n => n.points.head?.map (fun p => ⟨n.heading, p.take 100⟩)) := by
  induction l with
  | nil => rfl
  | cons n ns ih =>
    rw [List.filterMap_cons, List.filterMap_cons, ih]
    cases h : n.points <;> simp [h]

set_option maxRecDepth 8000 in
/-- C8 counterexample: the claimed extraction rule disagrees with the code
on three concrete note sets — a bullet whose trimmed definition has only 3
characters (the code requires more than 5), a bullet whose trimmed term
has exactly 40 characters (the code requires strictly fewer than 40), and
a fallback first point of 150 characters (the code truncates it to 100). -/
theorem C8_game_extraction_cex :
    initGamePairs [cexNoteA] ≠ initGamePairsClaim [cexNoteA]
    ∧ initGamePairs [cexNoteB] ≠ initGamePairsClaim [cexNoteB]
    ∧ initGamePairs [cexNoteC] ≠ initGamePairsClaim [cexNoteC]
    ∧ initGamePairs [cexNoteA] = [⟨str (r"H1"), str (r"ab: cde")⟩] := by
  exact ⟨by decide, by decide, by decide, by decide⟩

/-- C8 amended: the game-specific extraction emits a pair for a bullet
exactly when the split succeeds, the trimmed term is strictly shorter than
40 characters and the trimmed definition is strictly longer than 5
characters, truncating the definition to 100 characters with an ellipsis
marker when longer; when fewer than 3 qualifying pairs exist it appends
the fallback pair with the note's heading and the first point truncated to
100 characters, for each of the first 4 notes that have points. -/
theorem C8_game_extraction_amended : ∀ notes : List Note,
    initGamePairs notes = initGamePairsAmended notes := by
  intro notes
  have h1 : notes.flatMap (fun n => n.points.filterMap gamePairFromPoint)
      = ((notes.flatMap Note.points).filter bulletQualifies).map bulletPair := by
    have h0 : (fun n : Note => n.points.filterMap gamePairFromPoint)
        = fun n : Note => (n.points.filter bulletQualifies).map bulletPair :=
      funext fun n => filterMap_gamePair n.points
    rw [h0, flatMap_filter_map]
  simp only [initGamePairs, initGamePairsAmended, h1, fallback_eq (notes.take 4)]
  by_cases h : (((notes.flatMap Note.points).filter bulletQualifies).map bulletPair).length < 3
  · rw [if_pos h, if_neg (by omega)]
  · rw [if_neg h, if_pos (by omega)]

/-- Drawing from a nonempty pool always yields a pair of the pool. -/
theorem draw_mem (pool : List Pair) (i : Nat) (h : 0 < pool.length) :
    ∃ pb, draw pool i = some pb ∧ pb ∈ pool := by
  have hm : i % pool.length < pool.length := Nat.mod_lt _ h
  refine ⟨pool.get ⟨i % pool.length, hm⟩, ?_, List.get_mem _ _ _⟩
  simp [draw, List.get?_eq_get hm]

/-- Whatever the redraw loop returns belongs to the pool and avoids the
base term. -/
theorem redrawLoop_some (pool : List Pair) (t : Str) (stream : Nat → Nat)
    (k fuel : Nat) (pb : Pair) (h : redrawLoop pool t stream k fuel = some pb) :
    pb ∈ pool ∧ pb.term ≠ t := by
  induction fuel generalizing k with
  | zero => simp [redrawLoop] at h
  | succ n ih =>
    rw [redrawLoop] at h
    cases hd : draw pool (stream k) with
    | none => rw [hd] at h; cases h
    | some pc =>
      rw [hd] at h
      replace h : (if pc.term = t then redrawLoop pool t stream (k + 1) n else some pc)
          = some pb := h
      by_cases hterm : pc.term = t
      · rw [if_pos hterm] at h
        exact ih (k + 1) h
      · rw [if_neg hterm] at h
        obtain rfl : pc = pb := by simpa using h
        refine ⟨?_, hterm⟩
        have hd' : pool.get? (stream k % pool.length) = some pc := hd
        exact List.get?_mem hd'

/-- If the stream at position `k + n` supplies the index of a pair whose
term differs from `t`, then `n + 1` units of fuel let the redraw loop
starting at `k` return a pair. -/
theorem redrawLoop_terminates (pool : List Pair) (t : Str) (stream : Nat → Nat)
    (hpool : 0 < pool.length) :
    ∀ n k pb, draw pool (stream (k + n)) = some pb → pb.term ≠ t →
      ∃ res, redrawLoop pool t stream k (n + 1) = some res := by
  intro n
  induction n with
  | zero =>
    intro k pb hd hne
    rw [Nat.add_zero] at hd
    refine ⟨pb, ?_⟩
    rw [redrawLoop, hd]
    show (if pb.term = t then redrawLoop pool t stream (k + 1) 0 else some pb) = some pb
    rw [if_neg hne]
  | succ m ih =>
    intro k pb hd hne
    obtain ⟨pc, hpc, hpcmem⟩ := draw_mem pool (stream k) hpool
    by_cases hterm : pc.term = t
    · have hd' : draw pool (stream (k + 1 + m)) = some pb := by
        have harith : k + 1 + m = k + (m + 1) := by omega
        rw [harith]
        exact hd
      obtain ⟨res, hres⟩ := ih (k + 1) pb hd' hne
      refine ⟨res, ?_⟩
      rw [redrawLoop, hpc]
      show (if pc.term = t then redrawLoop pool t stream (k + 1) (m + 1) else some pc)
          = some res
      rw [if_pos hterm]
      exact hres
    · refine ⟨pc, ?_⟩
      rw [redrawLoop, hpc]
      show (if pc.term = t then redrawLoop pool t stream (k + 1) (m + 1) else some pc)
          = some pc
      rw [if_neg hterm]

/-- In a pool whose pairs all share the term, every redraw fails. -/
theorem redrawLoop_poolSameTerm_none (stream : Nat → Nat) :
    ∀ fuel k, redrawLoop poolSameTerm (str (r"A")) stream k fuel = none := by
  intro fuel
  induction fuel with
  | zero => intro k; rfl
  | succ n ih =>
    intro k
    have h2 : stream k % 2 = 0 ∨ stream k % 2 = 1 := by omega
    rcases h2 with h | h
    · have hd : draw poolSameTerm (stream k) = some ⟨str (r"A"), str (r"1")⟩ := by
        simp [draw, poolSameTerm, h]
      rw [redrawLoop, hd]
      show (if (⟨str (r"A"), str (r"1")⟩ : Pair).term = str (r"A") then
          redrawLoop poolSameTerm (str (r"A")) stream (k + 1) n
        else some ⟨str (r"A"), str (r"1")⟩) = none
      rw [if_pos rfl]
      exact ih (k + 1)
    · have hd : draw poolSameTerm (stream k) = some ⟨str (r"A"), str (r"2")⟩ := by
        simp [draw, poolSameTerm, h]
      rw [redrawLoop, hd]
      show (if (⟨str (r"A"), str (r"2")⟩ : Pair).term = str (r"A") then
          redrawLoop poolSameTerm (str (r"A")) stream (k + 1) n
        else some ⟨str (r"A"), str (r"2")⟩) = none
      rw [if_pos rfl]
      exact ih (k + 1)

/-- C5 counterexample: for the legal size-2 pool whose two pairs share the
term, the mismatch redraw loop never terminates — for every index stream
and every bound on the number of redraws it fails to produce a pair, and
question generation on the false branch never returns. -/
theorem C5_termination_cex :
    (∀ (stream : Nat → Nat) (fuel k : Nat),
      redrawLoop poolSameTerm (str (r"A")) stream k fuel = none)
    ∧ (∀ (stream : Nat → Nat) (fuel : Nat),
      generateQuestion poolSameTerm false 0 stream fuel = none) := by
  refine ⟨fun stream fuel k => redrawLoop_poolSameTerm_none stream fuel k, ?_⟩
  intro stream fuel
  have hgen : generateQuestion poolSameTerm false 0 stream fuel
      = match redrawLoop poolSameTerm (str (r"A")) stream 0 fuel with
        | none => none
        | some pb => some ⟨str (r"A"), pb.defn, false⟩ := rfl
  rw [hgen, redrawLoop_poolSameTerm_none stream fuel 0]

/-- C5 amended: question generation terminates whenever the index stream at
some position selects a pair whose term differs from the base pair's term
(in particular for any fair stream over a pool with two distinct terms);
the redraw loop then needs only finitely many redraws.  A size-2 pool alone
does not suffice: with all terms equal the loop never exits. -/
theorem C5_termination_amended (pool : List Pair) (iA : Nat)
    (stream : Nat → Nat) (pa : Pair) (n : Nat) (pb : Pair)
    (hlen : 2 ≤ pool.length) (hA : draw pool iA = some pa)
    (hn : draw pool (stream n) = some pb) (hne : pb.term ≠ pa.term) :
    (∃ res, redrawLoop pool pa.term stream 0 (n + 1) = some res)
    ∧ ∃ q, generateQuestion pool false iA stream (n + 1) = some q
        ∧ q.isCorrect = false := by
  have hpool : 0 < pool.length := by omega
  have hn' : draw pool (stream (0 + n)) = some pb := by rw [Nat.zero_add]; exact hn
  obtain ⟨res, hres⟩ := redrawLoop_terminates pool pa.term stream hpool n 0 pb hn' hne
  refine ⟨⟨res, hres⟩, ⟨pa.term, res.defn, false⟩, ?_, rfl⟩
  unfold generateQuestion
  rw [if_neg (by omega), hA]
  show (match redrawLoop pool pa.term stream 0 (n + 1) with
      | none => none
      | some pb => some (⟨pa.term, pb.defn, false⟩ : Question))
      = some ⟨pa.term, res.defn, false⟩
  rw [hres]

/-- Witness for C5 on the two-term pool with a stream pointing at the
second pair. -/
theorem C5_termination_amended_witness :
    (∃ res, redrawLoop poolAB (str (r"A")) (fun _ => 1) 0 1 = some res)
    ∧ ∃ q, generateQuestion poolAB false 0 (fun _ => 1) 1 = some q
        ∧ q.isCorrect = false :=
  C5_termination_amended poolAB 0 (fun _ => 1) ⟨str (r"A"), str (r"1")⟩ 0
    ⟨str (r"B"), str (r"2")⟩ (by decide) (by decide) (by decide) (by decide)

/-- C6: whenever question generation returns a false question, the returned
definition comes from a pool pair whose term differs from the returned
term; in particular, over the pool A/B/C with base pair A, the definition
of pair A is never returned as a false question. -/
theorem C6_false_question_mismatch (pool : List Pair) (b : Bool)
    (iA fuel : Nat) (stream : Nat → Nat) (q : Question)
    (h : generateQuestion pool b iA stream fuel = some q)
    (hf : q.isCorrect = false) :
    (∃ pb ∈ pool, pb.term ≠ q.term ∧ pb.defn = q.definition)
    ∧ (pool = poolABC → q.term = str (r"A") → q.definition ≠ str (r"1")) := by
  unfold generateQuestion at h
  by_cases hlen : pool.length < 2
  · rw [if_pos hlen] at h; cases h
  rw [if_neg hlen] at h
  cases hA : draw pool iA with
  | none => rw [hA] at h; cases h
  | some pa =>
    rw [hA] at h
    cases b with
    | true =>
      replace h : some (⟨pa.term, pa.defn, true⟩ : Question) = some q := h
      obtain rfl : q = ⟨pa.term, pa.defn, true⟩ := by simpa using h.symm
      cases hf
    | false =>
      replace h : (match redrawLoop pool pa.term stream 0 fuel with
          | none => none
          | some pb => some (⟨pa.term, pb.defn, false⟩ : Question)) = some q := h
      cases hr : redrawLoop pool pa.term stream 0 fuel with
      | none => rw [hr] at h; cases h
      | some pb =>
        rw [hr] at h
        obtain rfl : q = ⟨pa.term, pb.defn, false⟩ := by simpa using h.symm
        obtain ⟨hmem, hne⟩ := redrawLoop_some pool pa.term stream 0 fuel pb hr
        refine ⟨⟨pb, hmem, hne, rfl⟩, ?_⟩
        intro hpool hterm
        subst hpool
        replace hterm : pa.term = str (r"A") := hterm

        have hcases : pb = ⟨str (r"A"), str (r"1")⟩ ∨ pb = ⟨str (r"B"), str (r"2")⟩
            ∨ pb = ⟨str (r"C"), str (r"3")⟩ := by
          simpa [poolABC] using hmem
        rcases hcases with rfl | rfl | rfl
        · exact absurd hterm.symm hne
        · intro hcontra
          replace hcontra : str (r"2") = str (r"1") := hcontra
          cases hcontra
        · intro hcontra
          replace hcontra : str (r"3") = str (r"1") := hcontra
          cases hcontra

/-- Witness for C6 on the A/B/C pool with base pair A and the stream
selecting pair B. -/
theorem C6_false_question_mismatch_witness :
    (∃ pb ∈ poolABC,
        pb.term ≠ (⟨str (r"A"), str (r"2"), false⟩ : Question).term
        ∧ pb.defn = (⟨str (r"A"), str (r"2"), false⟩ : Question).definition)
    ∧ (poolABC = poolABC →
        (⟨str (r"A"), str (r"2"), false⟩ : Question).term = str (r"A") →
        (⟨str (r"A"), str (r"2"), false⟩ : Question).definition ≠ str (r"1")) :=
  C6_false_question_mismatch poolABC false 0 1 (fun _ => 1)
    ⟨str (r"A"), str (r"2"), false⟩ (by decide) rfl

end StudyBuddy
